import Mathlib

/-!
Verification of the ndt.cpp voice-activity-detection and speech-segmentation
pipeline against its natural-language specification.

The C++ components are shallowly embedded as executable Lean definitions:

* `NoiseCalibrator`      — test/AudioCapture/NoiseCalibrator.cpp
* `SpeechGate`           — test/AudioCapture/SpeechGate.cpp
* `AudioSegmentBuffer`   — test/AudioCapture/AudioSegmentBuffer.cpp
* `RingState`            — src/Services/AudioCaptureService/AudioCaptureService.cpp
                           (EnqueueAudioSamples / DequeueAudio)
* `ProcState` / `procTick` — src/Services/AudioProcessorService/AudioProcessorService.cpp
                           (RunWorker per-frame step)
* pcm conversion         — the clamp-and-lround loops of RunWorker and
                           STTService::Transcribe(const float*, int)
* `AudioProcessorService.Stop` / `STTService.Stop` — the two Stop() methods

Machine floating point values are modelled as exact rationals, wall-clock
timestamps (std::chrono time points) as explicit rational millisecond
parameters, and std::vector audio payloads as lists.  Event callbacks are
modelled as explicit event outputs.
-/

set_option autoImplicit false

namespace Ndt

/-- Last `n` elements of a list (the most recent ones when lists grow at
the back).  Used to model sliding windows and ring-buffer contents. -/
def lastN {α : Type} (n : Nat) (l : List α) : List α :=
  l.drop (l.length - n)

/-- Truncation toward zero, matching a C++ `static_cast<int>` on a double. -/
def truncQ (q : ℚ) : ℤ :=
  if q < 0 then ⌈q⌉ else ⌊q⌋

/-! ## NoiseCalibrator (test/AudioCapture/NoiseCalibrator.cpp)

Timestamps are passed explicitly: `calibrationStartTime` is the time recorded
by `startCalibration`, and `addRMSValue` receives the current time `now` in
milliseconds.  The C++ mutex only serializes access and has no sequential
semantics. -/

structure NoiseCalibrator where
  calibrationDurationMs : ℚ
  noiseFloor : ℚ
  calibrated : Bool
  rmsSamples : List ℚ
  calibrationStartTime : ℚ
deriving Repr, DecidableEq

namespace NoiseCalibrator

/-- Constructor `NoiseCalibrator(double calibrationDurationMs)`. -/
def init (calibrationDurationMs : ℚ) : NoiseCalibrator :=
  { calibrationDurationMs := calibrationDurationMs
    noiseFloor := 0
    calibrated := false
    rmsSamples := []
    calibrationStartTime := 0 }

/-- `NoiseCalibrator::startCalibration()` at time `now`. -/
def startCalibration (c : NoiseCalibrator) (now : ℚ) : NoiseCalibrator :=
  { c with rmsSamples := [], noiseFloor := 0, calibrated := false,
           calibrationStartTime := now }

/-- `NoiseCalibrator::computeNoiseFloor()`: average of the collected RMS
observations, with the `1e-6` safety fallback used both when no samples were
collected and when the average is below `1e-6`. -/
def computeNoiseFloor (c : NoiseCalibrator) : NoiseCalibrator :=
  if c.rmsSamples = [] then
    { c with noiseFloor := 1 / 1000000, calibrated := true }
  else
    let avgRms := c.rmsSamples.sum / (c.rmsSamples.length : ℚ)
    let floor := if avgRms < 1 / 1000000 then (1 : ℚ) / 1000000 else avgRms
    { c with noiseFloor := floor, calibrated := true }

/-- `NoiseCalibrator::addRMSValue(float rms)` at time `now`.  Returns the
C++ boolean result paired with the updated state. -/
def addRMSValue (c : NoiseCalibrator) (rms : ℚ) (now : ℚ) :
    Bool × NoiseCalibrator :=
  if c.calibrated then
    (true, c)
  else if now - c.calibrationStartTime ≥ c.calibrationDurationMs then
    (true, c.computeNoiseFloor)
  else
    (false, { c with rmsSamples := c.rmsSamples ++ [rms] })

/-- `NoiseCalibrator::isCalibrated()`. -/
def isCalibrated (c : NoiseCalibrator) : Bool := c.calibrated

/-- `NoiseCalibrator::getNoiseFloor()`. -/
def getNoiseFloor (c : NoiseCalibrator) : ℚ := c.noiseFloor

/-- `NoiseCalibrator::reset()`. -/
def reset (c : NoiseCalibrator) : NoiseCalibrator :=
  { c with rmsSamples := [], noiseFloor := 0, calibrated := false }

/-- A sequence of `addRMSValue` calls, each a `(rms, now)` pair. -/
def runAddCalls (c : NoiseCalibrator) (calls : List (ℚ × ℚ)) : NoiseCalibrator :=
  calls.foldl (fun st p => (st.addRMSValue p.1 p.2).2) c

end NoiseCalibrator

/-! ## SpeechGate (test/AudioCapture/SpeechGate.cpp)

`lastUpdateTime` is `none` for the default-constructed (invalid) time point
and `some t` after the first accepted update.  The `onSpeechStart` /
`onSpeechEnd` callbacks are modelled as an explicit list of fired events. -/

inductive GateState where
  | SILENCE
  | SPEECH
deriving Repr, DecidableEq

inductive GateEvent where
  | speechStart
  | speechEnd
deriving Repr, DecidableEq

structure SpeechGate where
  speechThresholdMultiplier : ℚ
  silenceThresholdMultiplier : ℚ
  speechStartHoldMs : ℚ
  speechEndHoldMs : ℚ
  state : GateState
  isSpeaking : Bool
  speechTimeAccumulatorMs : ℚ
  silenceTimeAccumulatorMs : ℚ
  lastUpdateTime : Option ℚ
deriving Repr, DecidableEq

namespace SpeechGate

/-- The SpeechGate constructor. -/
def init (speechMult silenceMult startHoldMs endHoldMs : ℚ) : SpeechGate :=
  { speechThresholdMultiplier := speechMult
    silenceThresholdMultiplier := silenceMult
    speechStartHoldMs := startHoldMs
    speechEndHoldMs := endHoldMs
    state := GateState.SILENCE
    isSpeaking := false
    speechTimeAccumulatorMs := 0
    silenceTimeAccumulatorMs := 0
    lastUpdateTime := none }

/-- `speechThreshold = std::max(noiseFloor * speechThresholdMultiplier_, 0.0001f)`. -/
def speechThreshold (g : SpeechGate) (noiseFloor : ℚ) : ℚ :=
  max (noiseFloor * g.speechThresholdMultiplier) (1 / 10000)

/-- `silenceThreshold = std::max(noiseFloor * silenceThresholdMultiplier_, 0.00005f)`. -/
def silenceThreshold (g : SpeechGate) (noiseFloor : ℚ) : ℚ :=
  max (noiseFloor * g.silenceThresholdMultiplier) (1 / 20000)

/-- The delta time computed by `update` at time `now`: zero while the last
update time is invalid, otherwise the elapsed time capped at 1000 ms. -/
def deltaOf (g : SpeechGate) (now : ℚ) : ℚ :=
  match g.lastUpdateTime with
  | none => 0
  | some t => if now - t > 1000 then 1000 else now - t

/-- `SpeechGate::transitionToSpeech()`. -/
def transitionToSpeech (g : SpeechGate) : SpeechGate :=
  { g with state := GateState.SPEECH, isSpeaking := true,
           speechTimeAccumulatorMs := 0, silenceTimeAccumulatorMs := 0 }

/-- `SpeechGate::transitionToSilence()`. -/
def transitionToSilence (g : SpeechGate) : SpeechGate :=
  { g with state := GateState.SILENCE, isSpeaking := false,
           speechTimeAccumulatorMs := 0, silenceTimeAccumulatorMs := 0 }

/-- `SpeechGate::update(float rms, float noiseFloor)` at time `now`.
Returns (stateChanged, fired events, new state). -/
def update (g : SpeechGate) (rms noiseFloor now : ℚ) :
    Bool × List GateEvent × SpeechGate :=
  if noiseFloor ≤ 0 then
    (false, [], g)
  else
    let delta := g.deltaOf now
    let g1 := { g with lastUpdateTime := some now }
    let spThr := g.speechThreshold noiseFloor
    let silThr := g.silenceThreshold noiseFloor
    match g1.state with
    | GateState.SILENCE =>
      if rms ≥ spThr then
        let acc := g1.speechTimeAccumulatorMs + delta
        if acc ≥ g1.speechStartHoldMs then
          (true, [GateEvent.speechStart],
           transitionToSpeech { g1 with speechTimeAccumulatorMs := acc })
        else
          (false, [], { g1 with speechTimeAccumulatorMs := acc })
      else if rms < silThr then
        (false, [], { g1 with speechTimeAccumulatorMs := 0 })
      else
        (false, [], g1)
    | GateState.SPEECH =>
      if rms < silThr then
        let acc := g1.silenceTimeAccumulatorMs + delta
        if acc ≥ g1.speechEndHoldMs then
          (true, [GateEvent.speechEnd],
           transitionToSilence { g1 with silenceTimeAccumulatorMs := acc })
        else
          (false, [], { g1 with silenceTimeAccumulatorMs := acc })
      else if rms ≥ spThr then
        (false, [], { g1 with silenceTimeAccumulatorMs := 0 })
      else
        (false, [], g1)

/-- `SpeechGate::reset()`. -/
def reset (g : SpeechGate) : SpeechGate :=
  { g with state := GateState.SILENCE, isSpeaking := false,
           speechTimeAccumulatorMs := 0, silenceTimeAccumulatorMs := 0,
           lastUpdateTime := none }

/-- A sequence of `update` ticks against a fixed noise floor; each tick is an
`(rms, now)` pair.  Returns the per-tick results and the final state. -/
def runGate (g : SpeechGate) (noiseFloor : ℚ) (ticks : List (ℚ × ℚ)) :
    List (Bool × List GateEvent) × SpeechGate :=
  match ticks with
  | [] => ([], g)
  | (rms, now) :: rest =>
    let r := g.update rms noiseFloor now
    let tail := runGate r.2.2 noiseFloor rest
    ((r.1, r.2.1) :: tail.1, tail.2)

end SpeechGate

/-! ## AudioSegmentBuffer (test/AudioCapture/AudioSegmentBuffer.cpp)

Samples are int16 PCM values, modelled as integers.  `std::vector` contents
are lists growing at the back. -/

structure AudioSegmentBuffer where
  sampleRate : ℤ
  prePaddingMs : ℚ
  postPaddingMs : ℚ
  buffer : List ℤ
  prePaddingBuffer : List ℤ
  segmentReady : Bool
  wasSpeaking : Bool
  totalSamplesCollected : Nat
deriving Repr, DecidableEq

namespace AudioSegmentBuffer

/-- The AudioSegmentBuffer constructor. -/
def init (sampleRate : ℤ) (prePaddingMs postPaddingMs : ℚ) : AudioSegmentBuffer :=
  { sampleRate := sampleRate
    prePaddingMs := prePaddingMs
    postPaddingMs := postPaddingMs
    buffer := []
    prePaddingBuffer := []
    segmentReady := false
    wasSpeaking := false
    totalSamplesCollected := 0 }

/-- `samplesForDuration(durationMs)`: `static_cast<int>(sampleRate_ * durationMs / 1000.0)`. -/
def samplesForDuration (b : AudioSegmentBuffer) (durationMs : ℚ) : ℤ :=
  truncQ ((b.sampleRate : ℚ) * durationMs / 1000)

/-- `AudioSegmentBuffer::addPrePadding()`: prepend the pre-padding buffer to
the active segment and clear it. -/
def addPrePadding (b : AudioSegmentBuffer) : AudioSegmentBuffer :=
  if b.prePaddingBuffer = [] then b
  else { b with buffer := b.prePaddingBuffer ++ b.buffer, prePaddingBuffer := [] }

/-- `AudioSegmentBuffer::addPostPadding()`: the C++ body is empty (a comment
claims post-padding is handled elsewhere); the state is untouched. -/
def addPostPadding (b : AudioSegmentBuffer) : AudioSegmentBuffer :=
  b

/-- `AudioSegmentBuffer::addSamples(samples, numSamples, isSpeaking)`.

In the silent branches, the C++ compares sizes against
`static_cast<size_t>(paddingSize)`; a negative `paddingSize` wraps to a huge
unsigned value, making the trim conditions false, which the `0 ≤ paddingSize`
conjuncts reproduce. -/
def addSamples (b : AudioSegmentBuffer) (samples : List ℤ) (isSpeaking : Bool) :
    AudioSegmentBuffer :=
  if isSpeaking then
    let b1 := { b with buffer := b.buffer ++ samples,
                       totalSamplesCollected := b.totalSamplesCollected + samples.length }
    let b2 := if ¬b1.wasSpeaking ∧ b1.prePaddingBuffer ≠ [] then b1.addPrePadding else b1
    { b2 with wasSpeaking := true }
  else if b.wasSpeaking then
    let paddingSize := b.samplesForDuration b.prePaddingMs
    let keepSize : ℤ := min paddingSize (b.buffer.length : ℤ)
    let pre := if 0 < keepSize then lastN keepSize.toNat b.buffer else []
    { b with prePaddingBuffer := pre, buffer := [], wasSpeaking := false }
  else
    let paddingSize := b.samplesForDuration b.prePaddingMs
    let pp := b.prePaddingBuffer ++ samples
    let pp2 := if 0 ≤ paddingSize ∧ paddingSize.toNat < pp.length
               then lastN paddingSize.toNat pp else pp
    { b with prePaddingBuffer := pp2, wasSpeaking := false }

/-- `AudioSegmentBuffer::finalizeSegment()`. -/
def finalizeSegment (b : AudioSegmentBuffer) : AudioSegmentBuffer :=
  if b.buffer = [] then
    { b with segmentReady := false }
  else
    let b1 := b.addPostPadding
    { b1 with segmentReady := true }

/-- `AudioSegmentBuffer::consumeSegment()`: returns the finished sample
vector (empty when no segment is ready) and the reset state. -/
def consumeSegment (b : AudioSegmentBuffer) : List ℤ × AudioSegmentBuffer :=
  if ¬b.segmentReady ∨ b.buffer = [] then
    ([], b)
  else
    (b.buffer,
     { b with buffer := [], prePaddingBuffer := [], segmentReady := false,
              wasSpeaking := false })

end AudioSegmentBuffer

/-! ## Ring buffer (src/Services/AudioCaptureService/AudioCaptureService.cpp)

`EnqueueAudioSamples` / `DequeueAudio` on the fields `ringBuffer_`,
`ringCapacity_`, `readIndex_`, `writeIndex_`, `available_`.  The mutex only
serializes access.  Sample values are opaque to the ring logic and modelled
as rationals. -/

structure RingState where
  ringCapacity : Nat
  ringBuffer : List ℚ
  readIndex : Nat
  writeIndex : Nat
  available : Nat
deriving Repr, DecidableEq

namespace RingState

/-- One iteration of the `EnqueueAudioSamples` loop: drop the oldest sample
if full, then store at the write index. -/
def enqueueOne (s : RingState) (x : ℚ) : RingState :=
  let s1 := if s.available = s.ringCapacity then
              { s with readIndex := (s.readIndex + 1) % s.ringCapacity,
                       available := s.available - 1 }
            else s
  { s1 with ringBuffer := s1.ringBuffer.set s1.writeIndex x,
            writeIndex := (s1.writeIndex + 1) % s1.ringCapacity,
            available := s1.available + 1 }

/-- `AudioCaptureService::EnqueueAudioSamples(samples, count)`. -/
def EnqueueAudioSamples (s : RingState) (samples : List ℚ) : RingState :=
  if samples = [] ∨ s.ringCapacity = 0 then s
  else samples.foldl enqueueOne s

/-- The copy loop of `DequeueAudio`: read `count` samples advancing the read
index. -/
def dequeueLoop (s : RingState) (count : Nat) : List ℚ × RingState :=
  match count with
  | 0 => ([], s)
  | n + 1 =>
    let x := s.ringBuffer.getD s.readIndex 0
    let s1 := { s with readIndex := (s.readIndex + 1) % s.ringCapacity,
                       available := s.available - 1 }
    let r := dequeueLoop s1 n
    (x :: r.1, r.2)

/-- `AudioCaptureService::DequeueAudio(out, maxSamples)`: returns the C++
boolean result, the samples copied into `out`, and the new state. -/
def DequeueAudio (s : RingState) (maxSamples : Nat) :
    Bool × List ℚ × RingState :=
  if maxSamples = 0 then (false, [], s)
  else if s.available < maxSamples then (false, [], s)
  else
    let r := s.dequeueLoop maxSamples
    (true, r.1, r.2)

/-- Well-formedness of a ring state: positive capacity, backing store of
exactly `capacity` cells, in-range read index, at most `capacity` samples
available, and the write index one past the newest sample. -/
def WF (s : RingState) : Prop :=
  0 < s.ringCapacity ∧
  s.ringBuffer.length = s.ringCapacity ∧
  s.readIndex < s.ringCapacity ∧
  s.available ≤ s.ringCapacity ∧
  s.writeIndex = (s.readIndex + s.available) % s.ringCapacity

/-- The stored samples in read order (oldest first). -/
def contents (s : RingState) : List ℚ :=
  (List.range s.available).map
    (fun i => s.ringBuffer.getD ((s.readIndex + i) % s.ringCapacity) 0)

end RingState

/-! ## AudioProcessorService (src/Services/AudioProcessorService/AudioProcessorService.cpp)

The worker state touched by `RunWorker` plus the lifecycle flags touched by
`Stop()`.  `std::vector::reserve` fixes the capacities used by
`AppendSamples`: `currentChunk_` holds 441000 cells (10 s at 44.1 kHz),
`tailBuffer_` and `preSpeechBuffer_` 8820 cells each; `clear()` keeps the
capacity and the post-move `reserve` restores it, so capacities are constant.
Joining a thread that is not joinable throws in C++, so the join primitive
returns an error in that case; `Stop()` guards it with `joinable()`. -/

structure AudioProcessorService where
  running : Bool
  workerJoinable : Bool
  speaking : Bool
  silenceMs : Nat
  speechMs : Nat
  silentFlag : Bool
  readyChunks : List (List ℚ)
  currentChunk : List ℚ
  tailBuffer : List ℚ
  preSpeechBuffer : List ℚ
deriving Repr, DecidableEq

namespace AudioProcessorService

def kSampleRate : Nat := 44100
def kBufferMs : Nat := 20
def kEndSilenceMs : Nat := 600
def kTailMs : Nat := 200
def kMaxChunkSeconds : Nat := 10
def kMinChunkMs : Nat := 300
def startMs : Nat := 60

/-- `kSampleRate * kMaxChunkSeconds`, the reserved capacity of `currentChunk_`
and the maximal sample count accepted for dispatch. -/
def maxSamples : Nat := kSampleRate * kMaxChunkSeconds

/-- `(kSampleRate * kMinChunkMs) / 1000`, the minimal sample count accepted. -/
def minSamples : Nat := kSampleRate * kMinChunkMs / 1000

/-- `(kSampleRate * kTailMs) / 1000`, the tail buffer bound and its reserved
capacity. -/
def tailCap : Nat := kSampleRate * kTailMs / 1000

/-- `(kSampleRate * 2) / 10`, the reserved capacity of `preSpeechBuffer_`. -/
def preCap : Nat := kSampleRate * 2 / 10

/-- `AudioProcessorService::AppendSamples(buffer, samples, count)`: append,
truncating the appended samples so the buffer never grows past its
capacity. -/
def AppendSamples (buffer : List ℚ) (samples : List ℚ) (capacity : Nat) : List ℚ :=
  buffer ++ samples.take (capacity - buffer.length)

/-- `rms < kSilenceRms` for `rms = sqrt(sum of squares / n)`: since both
sides are nonnegative this is equivalent to comparing the squares, which
keeps the computation rational.  `kSilenceRms = 0.0035 = 7/2000`. -/
def silentBuf (frame : List ℚ) : Bool :=
  decide ((frame.map (fun s => s * s)).sum / (frame.length : ℚ) < (7 / 2000 : ℚ) ^ 2)

/-- The tail-buffer update of a silent frame while speaking: append (capped
at the reserved capacity), then trim from the front to the last
`(kSampleRate * kTailMs) / 1000` samples. -/
def tailStep (tail frame : List ℚ) : List ℚ :=
  let t0 := AppendSamples tail frame tailCap
  if tailCap < t0.length then lastN tailCap t0 else t0

/-- One iteration of the `RunWorker` loop body after a successful dequeue of
`frame`, covering the locked section: the speech/silence bookkeeping and the
decision whether a completed chunk is handed on for transcription.  Returns
the new state and `some completedChunk` exactly when `shouldTranscribe` is
set. -/
def procTick (s : AudioProcessorService) (frame : List ℚ) :
    AudioProcessorService × Option (List ℚ) :=
  let bufferSilent := silentBuf frame
  if ¬s.speaking then
    if bufferSilent then
      ({ s with speechMs := 0, preSpeechBuffer := [], silentFlag := true }, none)
    else
      let speechMs := s.speechMs + kBufferMs
      let pre := AppendSamples s.preSpeechBuffer frame preCap
      if speechMs ≥ startMs then
        ({ s with speechMs := speechMs, speaking := true, silenceMs := 0,
                  tailBuffer := [],
                  currentChunk := AppendSamples [] pre maxSamples,
                  preSpeechBuffer := [], silentFlag := false }, none)
      else
        ({ s with speechMs := speechMs, preSpeechBuffer := pre,
                  silentFlag := false }, none)
  else if ¬bufferSilent then
    ({ s with silenceMs := 0, tailBuffer := [],
              currentChunk := AppendSamples s.currentChunk frame maxSamples,
              silentFlag := false }, none)
  else
    let silenceMs := s.silenceMs + kBufferMs
    let tail := tailStep s.tailBuffer frame
    if silenceMs ≥ kEndSilenceMs then
      let chunk := AppendSamples s.currentChunk tail maxSamples
      let base := { s with speaking := false, silenceMs := 0, speechMs := 0,
                           tailBuffer := [], silentFlag := true }
      if chunk.length < minSamples ∨ maxSamples < chunk.length then
        ({ base with currentChunk := [] }, none)
      else if chunk ≠ [] then
        ({ base with currentChunk := [] }, some chunk)
      else
        ({ base with currentChunk := chunk }, none)
    else
      ({ s with silenceMs := silenceMs, tailBuffer := tail,
                silentFlag := false }, none)

/-- The join primitive: `std::thread::join` throws when the thread is not
joinable. -/
def joinWorker (s : AudioProcessorService) : Except Unit AudioProcessorService :=
  if s.workerJoinable then Except.ok { s with workerJoinable := false }
  else Except.error ()

/-- `AudioProcessorService::Stop()`. -/
def Stop (s : AudioProcessorService) : Except Unit AudioProcessorService := do
  let s1 := { s with running := false }
  let s2 ← if s1.workerJoinable then joinWorker s1 else pure s1
  pure { s2 with readyChunks := [], currentChunk := [], tailBuffer := [],
                 preSpeechBuffer := [], speaking := false, silenceMs := 0,
                 speechMs := 0, silentFlag := true }

/-- The state in which every `Stop()` call leaves the service. -/
def stopped : AudioProcessorService :=
  { running := false, workerJoinable := false, speaking := false,
    silenceMs := 0, speechMs := 0, silentFlag := true, readyChunks := [],
    currentChunk := [], tailBuffer := [], preSpeechBuffer := [] }

end AudioProcessorService

/-! ## STTService (src/Services/STTService/STTService.cpp)

The fields touched by `Stop()` plus `workerFailed_`, which `Stop()` leaves
alone.  The `whisper_free` primitive errors on a null handle; `Stop()`
guards it with `if (ctx_)`. -/

structure STTService where
  running : Bool
  workerJoinable : Bool
  workerFailed : Bool
  queue : List (List ℤ)
  ctx : Bool
  available : Bool
  loggedUnavailable : Bool
deriving Repr, DecidableEq

namespace STTService

/-- The join primitive, erroring on a non-joinable worker. -/
def joinWorker (s : STTService) : Except Unit STTService :=
  if s.workerJoinable then Except.ok { s with workerJoinable := false }
  else Except.error ()

/-- The `whisper_free` primitive, erroring on a null context. -/
def freeCtx (s : STTService) : Except Unit STTService :=
  if s.ctx then Except.ok { s with ctx := false }
  else Except.error ()

/-- `STTService::Stop()`. -/
def Stop (s : STTService) : Except Unit STTService := do
  let s1 := { s with running := false }
  let s2 ← if s1.workerJoinable then joinWorker s1 else pure s1
  let s3 := { s2 with queue := [] }
  let s4 ← if s3.ctx then freeCtx s3 else pure s3
  pure { s4 with available := false, loggedUnavailable := false }

/-- The state `Stop()` produces from `s` (only `workerFailed_` survives). -/
def stoppedOf (s : STTService) : STTService :=
  { running := false, workerJoinable := false, workerFailed := s.workerFailed,
    queue := [], ctx := false, available := false, loggedUnavailable := false }

end STTService

/-! ## PCM conversion

The clamp-and-`lround` loops of `AudioProcessorService::RunWorker` and
`STTService::Transcribe(const float*, int)`:

    if (s > 1.0f) s = 1.0f;
    if (s < -1.0f) s = -1.0f;
    pcm.push_back(static_cast<int16_t>(std::lround(s * 32768.0f)));
-/

/-- The clamp of a float sample to `[-1, 1]`. -/
def clampSample (s : ℚ) : ℚ :=
  if s > 1 then 1 else if s < -1 then -1 else s

/-- `std::lround`: round to nearest, ties away from zero. -/
def lroundQ (q : ℚ) : ℤ :=
  if q < 0 then -⌊-q + 1 / 2⌋ else ⌊q + 1 / 2⌋

/-- The scaled and rounded value `std::lround(s * 32768.0f)` of a clamped
sample, before the `static_cast<int16_t>`. -/
def convertSample (s : ℚ) : ℤ :=
  lroundQ (clampSample s * 32768)

/-- `static_cast<int16_t>` on a long: two's-complement wrap-around into
`[-32768, 32767]`. -/
def toInt16 (z : ℤ) : ℤ :=
  (z + 32768) % 65536 - 32768

/-- The int16 value actually handed to the recognition engine for sample `s`. -/
def pcmOf (s : ℚ) : ℤ :=
  toInt16 (convertSample s)

/-! ## Concrete states used to exercise the definitions -/

/-- A fresh two-cell ring as `Start()` would leave a capacity-2 ring. -/
def ringW : RingState := ⟨2, [0, 0], 0, 0, 0⟩

/-- A two-cell ring holding one sample. -/
def ring1 : RingState := ⟨2, [5, 6], 0, 1, 1⟩

/-- A fresh segment buffer at 44.1 kHz with the default 100 ms / 200 ms padding. -/
def segB0 : AudioSegmentBuffer := AudioSegmentBuffer.init 44100 100 200

/-- `segB0` after one speaking frame of two samples. -/
def segB1 : AudioSegmentBuffer := segB0.addSamples [10, 20] true

/-- `segB1` after the first silent frame (the speech just ended). -/
def segB2 : AudioSegmentBuffer := segB1.addSamples [1, 2] false

/-- An uncalibrated calibrator that collected two RMS observations at start
time 0. -/
def calib0 : NoiseCalibrator := ⟨300, 0, false, [1/100, 3/100], 0⟩

/-- An uncalibrated calibrator whose sole observation is zero. -/
def calibZ : NoiseCalibrator := ⟨300, 0, false, [0], 0⟩

/-- A calibrator already locked at a floor of 0.05. -/
def calibC : NoiseCalibrator := ⟨300, 5/100, true, [], 0⟩

/-- A speech gate with the orchestrator's constructor arguments. -/
def gate0 : SpeechGate := SpeechGate.init (5/2) (3/2) 200 500

/-- A processor state 20 ms short of the end-of-speech silence threshold,
holding a two-sample chunk. -/
def procEnd0 : AudioProcessorService :=
  ⟨true, true, true, 580, 100, false, [], [1, 1], [], []⟩

/-! ## Helper lemmas -/

theorem lastN_length {α : Type} (n : Nat) (l : List α) :
    (lastN n l).length = min n l.length := by
  simp only [lastN, List.length_drop]
  omega

theorem lastN_of_length_le {α : Type} (n : Nat) (l : List α) (h : l.length ≤ n) :
    lastN n l = l := by
  simp [lastN, Nat.sub_eq_zero_of_le h]

theorem lastN_append_right {α : Type} (n : Nat) (l X : List α) (h : n ≤ X.length) :
    lastN n (l ++ X) = lastN n X := by
  unfold lastN
  rw [List.drop_append_eq_append_drop]
  have h1 : l.length ≤ (l ++ X).length - n := by simp; omega
  have h2 : (l ++ X).length - n - l.length = X.length - n := by simp; omega
  rw [List.drop_eq_nil_of_le h1, h2, List.nil_append]

theorem lastN_idem_append {α : Type} (n : Nat) (l xs : List α) :
    lastN n (lastN n l ++ xs) = lastN n (l ++ xs) := by
  rcases le_or_lt l.length n with h | h
  · rw [lastN_of_length_le n l h]
  · unfold lastN
    rw [List.drop_append_eq_append_drop, List.drop_append_eq_append_drop,
        List.drop_drop]
    have e1 : l.length - n + ((l.drop (l.length - n) ++ xs).length - n) =
        (l ++ xs).length - n := by
      simp only [List.length_append, List.length_drop]
      omega
    have e2 : (l.drop (l.length - n) ++ xs).length - n -
        (l.drop (l.length - n)).length = (l ++ xs).length - n - l.length := by
      simp only [List.length_append, List.length_drop]
      omega
    rw [e1, e2]

theorem lastN_append_singleton {α : Type} (l : List α) (x : α) (h : 0 < l.length) :
    lastN l.length (l ++ [x]) = l.drop 1 ++ [x] := by
  unfold lastN
  rw [List.drop_append_eq_append_drop]
  have e1 : (l ++ [x]).length - l.length = 1 := by simp
  rw [e1]
  have e2 : (1 : Nat) - l.length = 0 := by omega
  rw [e2, List.drop_zero]

/-! ## C10 — update with a non-positive noise floor is a full no-op -/

/-- C10: for every gate state and every RMS input, `SpeechGate::update` with
`noiseFloor ≤ 0` returns false and leaves the entire gate state unchanged
(state, isSpeaking, both accumulators and the last-update timestamp), so no
event can fire before a positive noise floor exists. -/
theorem speechGate_update_nonpositive_floor (g : SpeechGate) (rms noiseFloor now : ℚ)
    (h : noiseFloor ≤ 0) : g.update rms noiseFloor now = (false, [], g) := by
  unfold SpeechGate.update
  rw [if_pos h]

/-- Witness for C10: a concrete gate updated with noise floor 0. -/
theorem speechGate_update_nonpositive_floor_witness :
    (0 : ℚ) ≤ 0 ∧ gate0.update (1/2) 0 17 = (false, [], gate0) :=
  ⟨le_refl 0, speechGate_update_nonpositive_floor gate0 (1/2) 0 17 (le_refl 0)⟩

/-! ## C7 — addRMSValue is a no-op once calibrated -/

/-- C7: once calibration has locked the noise floor, every later
`addRMSValue` call returns true and leaves the state (noise floor and
calibrated flag included) unchanged — also across arbitrary call sequences —
and `isCalibrated()` remains true, so only `reset()` or `startCalibration()`
can change the floor again. -/
theorem addRMSValue_noop_after_calibration (c : NoiseCalibrator)
    (h : c.calibrated = true) :
    (∀ rms now, c.addRMSValue rms now = (true, c)) ∧
    (∀ calls, c.runAddCalls calls = c) ∧
    c.isCalibrated = true := by
  have hstep : ∀ rms now, c.addRMSValue rms now = (true, c) := by
    intro rms now
    unfold NoiseCalibrator.addRMSValue
    rw [h]
    simp
  refine ⟨hstep, ?_, h⟩
  intro calls
  induction calls with
  | nil => rfl
  | cons p ps ih =>
    unfold NoiseCalibrator.runAddCalls at ih ⊢
    rw [List.foldl_cons, hstep p.1 p.2]
    exact ih

/-- Witness for C7: a concrete calibrated calibrator absorbs a call. -/
theorem addRMSValue_noop_after_calibration_witness :
    calibC.calibrated = true ∧ calibC.addRMSValue 7 1000 = (true, calibC) :=
  ⟨rfl, (addRMSValue_noop_after_calibration calibC rfl).1 7 1000⟩

/-! ## C6 — the locked floor versus the arithmetic mean -/

/-- C6 counterexample: a calibrator whose only observation is 0 locks the
floor to the 1e-6 fallback, not to the arithmetic mean (which is 0), so the
floor is not always the mean of the collected observations. -/
theorem noiseFloor_not_mean_when_tiny :
    (calibZ.addRMSValue 5 300).2.noiseFloor = 1/1000000 ∧
    calibZ.rmsSamples.sum / (calibZ.rmsSamples.length : ℚ) = 0 ∧
    (calibZ.addRMSValue 5 300).2.noiseFloor ≠
      calibZ.rmsSamples.sum / (calibZ.rmsSamples.length : ℚ) := by
  have h1 : (calibZ.addRMSValue 5 300).2.noiseFloor = 1/1000000 := by
    norm_num [calibZ, NoiseCalibrator.addRMSValue, NoiseCalibrator.computeNoiseFloor]
  have h2 : calibZ.rmsSamples.sum / (calibZ.rmsSamples.length : ℚ) = 0 := by
    norm_num [calibZ]
  refine ⟨h1, h2, ?_⟩
  rw [h1, h2]
  norm_num

/-- C6 amended: when the calibration window elapses the calibrator locks
(`calibrated` becomes true and the call returns true); with zero
observations the floor is the 1e-6 epsilon; with observations whose mean is
at least 1e-6 the floor is exactly that mean; a mean below 1e-6 is clamped
up to 1e-6; the observation passed on the locking call is never used (the
result is the same for any argument); and the locked floor is positive. -/
theorem noiseFloor_lock_amended (c : NoiseCalibrator) (rms now : ℚ)
    (hcal : c.calibrated = false)
    (helapsed : c.calibrationDurationMs ≤ now - c.calibrationStartTime) :
    0 < (c.addRMSValue rms now).2.noiseFloor ∧
    (c.addRMSValue rms now).2.calibrated = true ∧
    (c.addRMSValue rms now).1 = true ∧
    (c.rmsSamples = [] → (c.addRMSValue rms now).2.noiseFloor = 1/1000000) ∧
    (c.rmsSamples ≠ [] → 1/1000000 ≤ c.rmsSamples.sum / (c.rmsSamples.length : ℚ) →
      (c.addRMSValue rms now).2.noiseFloor = c.rmsSamples.sum / (c.rmsSamples.length : ℚ)) ∧
    (c.rmsSamples.sum / (c.rmsSamples.length : ℚ) < 1/1000000 →
      (c.addRMSValue rms now).2.noiseFloor = 1/1000000) ∧
    (∀ rms2, c.addRMSValue rms2 now = c.addRMSValue rms now) := by
  have hany : ∀ r2 : ℚ, c.addRMSValue r2 now = (true, c.computeNoiseFloor) := by
    intro r2
    unfold NoiseCalibrator.addRMSValue
    rw [hcal]
    simp only [Bool.false_eq_true, if_false, ge_iff_le]
    rw [if_pos (by linarith)]
  have hfloor : c.computeNoiseFloor.noiseFloor =
      if c.rmsSamples = [] then 1/1000000
      else if c.rmsSamples.sum / (c.rmsSamples.length : ℚ) < 1/1000000 then 1/1000000
      else c.rmsSamples.sum / (c.rmsSamples.length : ℚ) := by
    unfold NoiseCalibrator.computeNoiseFloor
    by_cases h : c.rmsSamples = []
    · rw [if_pos h, if_pos h]
    · rw [if_neg h, if_neg h]
  have hcalib : c.computeNoiseFloor.calibrated = true := by
    unfold NoiseCalibrator.computeNoiseFloor
    by_cases h : c.rmsSamples = []
    · rw [if_pos h]
    · rw [if_neg h]
  rw [hany rms]
  refine ⟨?_, hcalib, rfl, ?_, ?_, ?_, fun r2 => hany r2⟩
  · rw [show ((true, c.computeNoiseFloor).2 : NoiseCalibrator) = c.computeNoiseFloor from rfl,
        hfloor]
    split_ifs with h1 h2
    · norm_num
    · norm_num
    · push_neg at h2
      have : (0:ℚ) < 1/1000000 := by norm_num
      linarith
  · intro h
    rw [show ((true, c.computeNoiseFloor).2 : NoiseCalibrator) = c.computeNoiseFloor from rfl,
        hfloor, if_pos h]
  · intro hne hge
    rw [show ((true, c.computeNoiseFloor).2 : NoiseCalibrator) = c.computeNoiseFloor from rfl,
        hfloor, if_neg hne, if_neg (by linarith)]
  · intro hlt
    rw [show ((true, c.computeNoiseFloor).2 : NoiseCalibrator) = c.computeNoiseFloor from rfl,
        hfloor]
    by_cases h : c.rmsSamples = []
    · rw [if_pos h]
    · rw [if_neg h, if_pos hlt]

/-- Witness for C6 (amended): a concrete uncalibrated calibrator locks at
the mean-derived positive floor once 300 ms have elapsed. -/
theorem noiseFloor_lock_amended_witness :
    0 < (calib0.addRMSValue 5 300).2.noiseFloor ∧
    (calib0.addRMSValue 5 300).2.calibrated = true := by
  have h := noiseFloor_lock_amended calib0 5 300 rfl (by norm_num [calib0])
  exact ⟨h.1, h.2.1⟩

/-! ## C8 — clamped conversion to int16 -/

theorem clampSample_mem (s : ℚ) : -1 ≤ clampSample s ∧ clampSample s ≤ 1 := by
  unfold clampSample
  split_ifs with h1 h2
  · norm_num
  · norm_num
  · push_neg at h1 h2
    exact ⟨h2, h1⟩

theorem lroundQ_bounds (q : ℚ) (hlo : -32768 ≤ q) (hhi : q ≤ 32768) :
    -32768 ≤ lroundQ q ∧ lroundQ q ≤ 32768 := by
  unfold lroundQ
  split_ifs with h
  · have h1 : ⌊-q + 1/2⌋ < 32769 := by
      rw [Int.floor_lt]
      push_cast
      linarith
    have h2 : 0 ≤ ⌊-q + 1/2⌋ := Int.floor_nonneg.mpr (by linarith)
    omega
  · push_neg at h
    have h1 : ⌊q + 1/2⌋ < 32769 := by
      rw [Int.floor_lt]
      push_cast
      linarith
    have h2 : (0:ℤ) ≤ ⌊q + 1/2⌋ := Int.floor_nonneg.mpr (by linarith)
    omega

/-- C8 counterexample: for the sample 1.0 (already clamped), the scaled
value `lround(1.0f * 32768.0f)` is 32768, which does not fit in
`[-32768, 32767]`: the int16 conversion overflows exactly at full scale,
and the wrapped value handed on is -32768. -/
theorem pcm_conversion_overflow_at_one :
    convertSample 1 = 32768 ∧ ¬(convertSample 1 ≤ 32767) ∧ pcmOf 1 = -32768 := by
  have hc : clampSample 1 = 1 := by norm_num [clampSample]
  have h1 : convertSample 1 = 32768 := by
    unfold convertSample
    rw [hc]
    unfold lroundQ
    rw [if_neg (by norm_num)]
    rw [Int.floor_eq_iff]
    constructor
    · push_cast
      norm_num
    · push_cast
      norm_num
  refine ⟨h1, by rw [h1]; decide, ?_⟩
  unfold pcmOf toInt16
  rw [h1]
  decide

/-- C8 amended: every sample is clamped to `[-1, 1]` before conversion; the
scaled rounded value lies in `[-32768, 32768]`; for every clamped sample
strictly below `65535/65536` (≈ 0.99998) it fits int16 without overflow; the
int16 cast is the identity whenever the value fits, and wraps the overflow
value 32768 (produced exactly by full-scale samples) to -32768. -/
theorem pcm_conversion_amended (s : ℚ) :
    (-1 ≤ clampSample s ∧ clampSample s ≤ 1) ∧
    (-32768 ≤ convertSample s ∧ convertSample s ≤ 32768) ∧
    (clampSample s < 65535/65536 → convertSample s ≤ 32767) ∧
    (convertSample s ≠ 32768 → pcmOf s = convertSample s) ∧
    (convertSample s = 32768 → pcmOf s = -32768) := by
  obtain ⟨hlo, hhi⟩ := clampSample_mem s
  have hb : -32768 ≤ convertSample s ∧ convertSample s ≤ 32768 := by
    unfold convertSample
    exact lroundQ_bounds _ (by linarith) (by linarith)
  refine ⟨⟨hlo, hhi⟩, hb, ?_, ?_, ?_⟩
  · intro hsharp
    have hq : clampSample s * 32768 + 1/2 < 32768 := by
      have := mul_lt_mul_of_pos_right hsharp (by norm_num : (0:ℚ) < 32768)
      norm_num at this
      linarith
    unfold convertSample lroundQ
    split_ifs with h
    · have h2 : 0 ≤ ⌊-(clampSample s * 32768) + 1/2⌋ :=
        Int.floor_nonneg.mpr (by linarith)
      omega
    · have h1 : ⌊clampSample s * 32768 + 1/2⌋ < 32768 := by
        rw [Int.floor_lt]
        push_cast
        linarith
      omega
  · intro h
    obtain ⟨h1, h2⟩ := hb
    unfold pcmOf toInt16
    omega
  · intro h
    unfold pcmOf toInt16
    rw [h]
    decide

/-- Witness for C8 (amended): the sample 1/2 is strictly inside the safe
range and converts without overflow. -/
theorem pcm_conversion_amended_witness :
    clampSample (1/2) < 65535/65536 ∧ convertSample (1/2) ≤ 32767 := by
  have hc : clampSample (1/2) < 65535/65536 := by norm_num [clampSample]
  exact ⟨hc, (pcm_conversion_amended (1/2)).2.2.1 hc⟩

/-! ## C9 — Stop() is safe and idempotent -/

/-- C9: calling `Stop()` twice does not crash (no double join of the worker
and no double free of the engine handle, both guards being modelled as
erroring primitives) and the second call is a no-op: for both services the
state after the first `Stop()` is a fixed point of `Stop()`, with queues and
buffers empty and the engine handle released. -/
theorem stop_twice_idempotent :
    (∀ p : AudioProcessorService, p.Stop = Except.ok AudioProcessorService.stopped ∧
      AudioProcessorService.stopped.Stop = Except.ok AudioProcessorService.stopped) ∧
    (∀ t : STTService, t.Stop = Except.ok (STTService.stoppedOf t) ∧
      (STTService.stoppedOf t).Stop = Except.ok (STTService.stoppedOf t)) := by
  constructor
  · intro p
    constructor
    · by_cases h : p.workerJoinable <;>
        simp [AudioProcessorService.Stop, AudioProcessorService.joinWorker,
          AudioProcessorService.stopped, h, Bind.bind, Except.bind, Pure.pure,
          Except.pure]
    · rfl
  · intro t
    constructor
    · by_cases h1 : t.workerJoinable <;> by_cases h2 : t.ctx <;>
        simp [STTService.Stop, STTService.joinWorker, STTService.freeCtx,
          STTService.stoppedOf, h1, h2, Bind.bind, Except.bind, Pure.pure,
          Except.pure]
    · rfl

/-! ## C1 — finalizeSegment appends no tail buffer -/

/-- C1 (the code evaluated at the failing input): `finalizeSegment()`
changes neither the active segment nor the pre-padding buffer — it only sets
the ready flag, since `addPostPadding()` has an empty body — so a consumed
segment is exactly the active buffer with nothing appended.  Concretely,
after a two-sample utterance the consumed segment is just those samples, and
the first silent frame after speech moves the last `prePaddingMs` of the
*speech* samples into the pre-padding buffer for the *next* segment while
discarding the incoming post-speech samples and clearing the active segment,
after which no segment can be finalized at all. -/
theorem finalizeSegment_no_post_padding :
    (∀ b : AudioSegmentBuffer, b.finalizeSegment.buffer = b.buffer ∧
      b.finalizeSegment.prePaddingBuffer = b.prePaddingBuffer) ∧
    (∀ b : AudioSegmentBuffer, b.buffer ≠ [] →
      (b.finalizeSegment.consumeSegment).1 = b.buffer) ∧
    (segB1.finalizeSegment.consumeSegment).1 = [10, 20] ∧
    (segB2.buffer = [] ∧ segB2.prePaddingBuffer = [10, 20] ∧
      segB2.finalizeSegment.segmentReady = false) := by
  have hfin : ∀ b : AudioSegmentBuffer, b.buffer ≠ [] →
      b.finalizeSegment = { b with segmentReady := true } := by
    intro b h
    unfold AudioSegmentBuffer.finalizeSegment AudioSegmentBuffer.addPostPadding
    rw [if_neg h]
  have hs2 : segB2.buffer = [] ∧ segB2.prePaddingBuffer = [10, 20] := by
    have hpad : truncQ ((44100 : ℚ) * 100 / 1000) = 4410 := by
      unfold truncQ
      rw [if_neg (by norm_num),
          show ((44100:ℚ) * 100 / 1000) = ((4410:ℤ):ℚ) by norm_num,
          Int.floor_intCast]
    constructor <;>
      simp [segB2, segB1, segB0, AudioSegmentBuffer.addSamples,
        AudioSegmentBuffer.init, AudioSegmentBuffer.samplesForDuration,
        AudioSegmentBuffer.addPrePadding, hpad, lastN]
  refine ⟨?_, ?_, ?_, hs2.1, hs2.2, ?_⟩
  · intro b
    unfold AudioSegmentBuffer.finalizeSegment AudioSegmentBuffer.addPostPadding
    split_ifs <;> exact ⟨rfl, rfl⟩
  · intro b h
    rw [hfin b h]
    unfold AudioSegmentBuffer.consumeSegment
    simp [h]
  · have h1 : segB1.buffer = [10, 20] := by decide
    rw [hfin segB1 (by decide)]
    unfold AudioSegmentBuffer.consumeSegment
    simp [h1]
  · simp [AudioSegmentBuffer.finalizeSegment, hs2.1]

/-- Witness for C1's theorem: the general no-append fact applied to the
concrete segment buffer. -/
theorem finalizeSegment_no_post_padding_witness :
    segB1.buffer ≠ [] ∧ (segB1.finalizeSegment.consumeSegment).1 = segB1.buffer :=
  ⟨by decide, finalizeSegment_no_post_padding.2.1 segB1 (by decide)⟩

/-! ## C2 — duration bounds on finalized segments -/

/-- C2 counterexample: `consumeSegment()` applies no duration bound — a
two-sample segment (far below the 300 ms minimum, i.e. below
`minSamples = 13230` at 44.1 kHz) is returned as is. -/
theorem consumeSegment_returns_short_segment :
    (segB1.finalizeSegment.consumeSegment).1.length = 2 ∧
    (segB1.finalizeSegment.consumeSegment).1 ≠ [] ∧
    (segB1.finalizeSegment.consumeSegment).1.length <
      AudioProcessorService.minSamples := by
  refine ⟨by decide, by decide, by decide⟩

theorem AppendSamples_length_le (buf xs : List ℚ) (cap : Nat)
    (h : buf.length ≤ cap) :
    (AudioProcessorService.AppendSamples buf xs cap).length ≤ cap := by
  unfold AudioProcessorService.AppendSamples
  simp only [List.length_append, List.length_take]
  omega

/-- C2 amended: in `RunWorker`, every chunk handed on for transcription has
between `minSamples` (300 ms) and `maxSamples` (10 s) samples; a finalized
chunk shorter than `minSamples` is dropped (nothing dispatched and the
chunk cleared); and the current chunk can never exceed `maxSamples` because
`AppendSamples` truncates at the reserved capacity — so the over-length
drop branch is vacuous, long utterances being truncated rather than
dropped.  The modular `AudioSegmentBuffer::consumeSegment`, in contrast,
applies no duration bound at all (see the counterexample). -/
theorem procTick_emit_bounds (s : AudioProcessorService) (frame : List ℚ)
    (c : List ℚ) (hc : (s.procTick frame).2 = some c) :
    AudioProcessorService.minSamples ≤ c.length ∧
    c.length ≤ AudioProcessorService.maxSamples := by
  simp only [AudioProcessorService.procTick] at hc
  split_ifs at hc <;> simp only [Option.some.injEq, reduceCtorEq] at hc
  subst hc
  omega

theorem procTick_chunk_le (s : AudioProcessorService) (frame : List ℚ)
    (hinv : s.currentChunk.length ≤ AudioProcessorService.maxSamples) :
    (s.procTick frame).1.currentChunk.length ≤
      AudioProcessorService.maxSamples := by
  simp only [AudioProcessorService.procTick]
  split_ifs <;>
    first
      | exact hinv
      | (simp; done)
      | exact AppendSamples_length_le _ _ _ (by simp)
      | exact AppendSamples_length_le _ _ _ hinv
      | omega

theorem procTick_drop_short (s : AudioProcessorService) (frame : List ℚ)
    (hsp : s.speaking = true)
    (hsil : AudioProcessorService.silentBuf frame = true)
    (hend : AudioProcessorService.kEndSilenceMs ≤
      s.silenceMs + AudioProcessorService.kBufferMs)
    (hshort : (AudioProcessorService.AppendSamples s.currentChunk
        (AudioProcessorService.tailStep s.tailBuffer frame)
        AudioProcessorService.maxSamples).length <
      AudioProcessorService.minSamples) :
    (s.procTick frame).2 = none ∧ (s.procTick frame).1.currentChunk = [] := by
  simp only [AudioProcessorService.procTick, hsp, hsil, Bool.not_true,
    Bool.false_eq_true, if_false, ge_iff_le, hend, if_true, if_pos hend]
  rw [if_pos (Or.inl hshort)]
  exact ⟨rfl, rfl⟩

/-- C2 amended: in `RunWorker`, every chunk handed on for transcription has
between `minSamples` (300 ms) and `maxSamples` (10 s) samples; a finalized
chunk shorter than `minSamples` is dropped (nothing dispatched and the
chunk cleared); and the current chunk can never exceed `maxSamples` because
`AppendSamples` truncates at the reserved capacity — so the over-length
drop branch is vacuous, long utterances being truncated rather than
dropped.  The modular `AudioSegmentBuffer::consumeSegment`, in contrast,
applies no duration bound at all (see the counterexample). -/
theorem runWorker_duration_bounds (s : AudioProcessorService) (frame : List ℚ)
    (hinv : s.currentChunk.length ≤ AudioProcessorService.maxSamples) :
    (∀ c, (s.procTick frame).2 = some c →
      AudioProcessorService.minSamples ≤ c.length ∧
      c.length ≤ AudioProcessorService.maxSamples) ∧
    (s.procTick frame).1.currentChunk.length ≤ AudioProcessorService.maxSamples ∧
    (s.speaking = true → AudioProcessorService.silentBuf frame = true →
      AudioProcessorService.kEndSilenceMs ≤
        s.silenceMs + AudioProcessorService.kBufferMs →
      (AudioProcessorService.AppendSamples s.currentChunk
        (AudioProcessorService.tailStep s.tailBuffer frame)
        AudioProcessorService.maxSamples).length <
        AudioProcessorService.minSamples →
      (s.procTick frame).2 = none ∧ (s.procTick frame).1.currentChunk = []) :=
  ⟨fun c hc => procTick_emit_bounds s frame c hc,
   procTick_chunk_le s frame hinv,
   fun h1 h2 h3 h4 => procTick_drop_short s frame h1 h2 h3 h4⟩

/-- Witness for C2 (amended): a concrete finalization tick whose chunk is
three samples long is dropped: nothing is dispatched and the chunk is
cleared. -/
theorem runWorker_duration_bounds_witness :
    (procEnd0.procTick [0]).2 = none ∧
    (procEnd0.procTick [0]).1.currentChunk = [] := by
  have hsil : AudioProcessorService.silentBuf [0] = true := by
    norm_num [AudioProcessorService.silentBuf]
  exact (runWorker_duration_bounds procEnd0 [0] (by decide)).2.2 rfl hsil
    (by decide) (by decide)

/-! ## C4 — all-or-nothing reads -/

theorem dequeueLoop_length (s : RingState) (count : Nat) :
    (s.dequeueLoop count).1.length = count := by
  induction count generalizing s with
  | zero => rfl
  | succ n ih => simp [RingState.dequeueLoop, ih]

/-- C4: for every ring state and requested count, if fewer than `count`
samples are available (in particular for a non-positive count) the read
returns false and the state is returned unchanged — no index moves, no
sample is consumed; and whenever the read returns true it delivers exactly
`count` samples, never a partial read. -/
theorem dequeueAudio_all_or_nothing (s : RingState) (count : Nat) :
    (s.available < count → s.DequeueAudio count = (false, [], s)) ∧
    (count = 0 → s.DequeueAudio count = (false, [], s)) ∧
    ((s.DequeueAudio count).1 = true → (s.DequeueAudio count).2.1.length = count) := by
  refine ⟨?_, ?_, ?_⟩
  · intro h
    unfold RingState.DequeueAudio
    split_ifs with h1
    · rfl
    · rfl
  · intro h
    unfold RingState.DequeueAudio
    rw [if_pos h]
  · intro htrue
    unfold RingState.DequeueAudio at htrue ⊢
    split_ifs at htrue ⊢
    exact dequeueLoop_length s count

/-- Witness for C4: a one-sample ring refuses a two-sample read untouched. -/
theorem dequeueAudio_all_or_nothing_witness :
    ring1.available < 2 ∧ ring1.DequeueAudio 2 = (false, [], ring1) :=
  ⟨by decide, (dequeueAudio_all_or_nothing ring1 2).1 (by decide)⟩

/-! ## C5 — speech gate hysteresis and transitions -/

theorem update_in_band (g : SpeechGate) (nf rms now : ℚ) (hnf : 0 < nf)
    (h1 : g.silenceThreshold nf < rms) (h2 : rms < g.speechThreshold nf) :
    g.update rms nf now = (false, [], { g with lastUpdateTime := some now }) := by
  obtain ⟨m1, m2, hold1, hold2, st, spk, a1, a2, lt⟩ := g
  unfold SpeechGate.update
  rw [if_neg (not_le.mpr hnf)]
  cases st
  case SILENCE =>
    dsimp only
    rw [if_neg (not_le.mpr h2), if_neg (not_lt.mpr h1.le)]
  case SPEECH =>
    dsimp only
    rw [if_neg (not_lt.mpr h1.le), if_neg (not_le.mpr h2)]

theorem runGate_in_band (g : SpeechGate) (nf : ℚ) (ticks : List (ℚ × ℚ))
    (hnf : 0 < nf)
    (hband : ∀ p ∈ ticks,
      g.silenceThreshold nf < p.1 ∧ p.1 < g.speechThreshold nf) :
    (g.runGate nf ticks).2.state = g.state ∧
    (g.runGate nf ticks).2.isSpeaking = g.isSpeaking ∧
    (g.runGate nf ticks).2.speechTimeAccumulatorMs = g.speechTimeAccumulatorMs ∧
    (g.runGate nf ticks).2.silenceTimeAccumulatorMs = g.silenceTimeAccumulatorMs ∧
    ∀ o ∈ (g.runGate nf ticks).1, o = (false, ([] : List GateEvent)) := by
  induction ticks generalizing g with
  | nil => exact ⟨rfl, rfl, rfl, rfl, by simp [SpeechGate.runGate]⟩
  | cons p ts ih =>
    obtain ⟨rms, now⟩ := p
    have hb := hband (rms, now) (List.mem_cons_self _ _)
    have hupd := update_in_band g nf rms now hnf hb.1 hb.2
    have ihg := ih { g with lastUpdateTime := some now }
      (fun q hq => hband q (List.mem_cons_of_mem _ hq))
    simp only [SpeechGate.runGate, hupd]
    refine ⟨ihg.1, ihg.2.1, ihg.2.2.1, ihg.2.2.2.1, ?_⟩
    intro o ho
    simp only [List.mem_cons] at ho
    rcases ho with ho | ho
    · exact ho
    · exact ihg.2.2.2.2 o ho

theorem update_fired_characterization (g : SpeechGate) (nf rms now : ℚ)
    (hfired : (g.update rms nf now).1 = true) :
    (g.update rms nf now).2.1.length = 1 ∧
    (g.update rms nf now).2.2.speechTimeAccumulatorMs = 0 ∧
    (g.update rms nf now).2.2.silenceTimeAccumulatorMs = 0 ∧
    ((g.state = GateState.SILENCE ∧
      (g.update rms nf now).2.1 = [GateEvent.speechStart] ∧
      g.speechThreshold nf ≤ rms ∧
      g.speechStartHoldMs ≤ g.speechTimeAccumulatorMs + g.deltaOf now ∧
      (g.update rms nf now).2.2.state = GateState.SPEECH) ∨
     (g.state = GateState.SPEECH ∧
      (g.update rms nf now).2.1 = [GateEvent.speechEnd] ∧
      rms < g.silenceThreshold nf ∧
      g.speechEndHoldMs ≤ g.silenceTimeAccumulatorMs + g.deltaOf now ∧
      (g.update rms nf now).2.2.state = GateState.SILENCE)) := by
  obtain ⟨m1, m2, hold1, hold2, st, spk, a1, a2, lt⟩ := g
  unfold SpeechGate.update at hfired ⊢
  by_cases hnf : nf ≤ 0
  · rw [if_pos hnf] at hfired
    simp at hfired
  · rw [if_neg hnf] at hfired ⊢
    cases st
    · dsimp only at hfired ⊢
      split_ifs at hfired ⊢ with hc1 hc2 hc3 <;>
        first
          | exact ⟨rfl, rfl, rfl, Or.inl ⟨rfl, rfl, hc1, hc2, rfl⟩⟩
          | simp at hfired
    · dsimp only at hfired ⊢
      split_ifs at hfired ⊢ with hc1 hc2 hc3 <;>
        first
          | exact ⟨rfl, rfl, rfl, Or.inr ⟨rfl, rfl, hc1, hc2, rfl⟩⟩
          | simp at hfired

/-- C5: with a fixed positive noise floor, (a) over any sequence of ticks
whose RMS lies strictly between the silence and speech thresholds, no
transition fires, no event is emitted and both time accumulators are held
exactly (neither advanced nor reset); and (b) whenever an update does
report a state change, it fires exactly one event, resets both
accumulators, and is either a speech start — from `SILENCE`, with RMS at or
above the speech threshold and the accumulated time at least
`speechStartHoldMs` — or symmetrically a speech end from `SPEECH`. -/
theorem speechGate_hysteresis_transitions (g : SpeechGate) (nf : ℚ)
    (ticks : List (ℚ × ℚ)) (hnf : 0 < nf)
    (hband : ∀ p ∈ ticks,
      g.silenceThreshold nf < p.1 ∧ p.1 < g.speechThreshold nf) :
    ((g.runGate nf ticks).2.state = g.state ∧
     (g.runGate nf ticks).2.isSpeaking = g.isSpeaking ∧
     (g.runGate nf ticks).2.speechTimeAccumulatorMs = g.speechTimeAccumulatorMs ∧
     (g.runGate nf ticks).2.silenceTimeAccumulatorMs = g.silenceTimeAccumulatorMs ∧
     ∀ o ∈ (g.runGate nf ticks).1, o = (false, ([] : List GateEvent))) ∧
    (∀ rms now, (g.update rms nf now).1 = true →
      (g.update rms nf now).2.1.length = 1 ∧
      (g.update rms nf now).2.2.speechTimeAccumulatorMs = 0 ∧
      (g.update rms nf now).2.2.silenceTimeAccumulatorMs = 0 ∧
      ((g.state = GateState.SILENCE ∧
        (g.update rms nf now).2.1 = [GateEvent.speechStart] ∧
        g.speechThreshold nf ≤ rms ∧
        g.speechStartHoldMs ≤ g.speechTimeAccumulatorMs + g.deltaOf now ∧
        (g.update rms nf now).2.2.state = GateState.SPEECH) ∨
       (g.state = GateState.SPEECH ∧
        (g.update rms nf now).2.1 = [GateEvent.speechEnd] ∧
        rms < g.silenceThreshold nf ∧
        g.speechEndHoldMs ≤ g.silenceTimeAccumulatorMs + g.deltaOf now ∧
        (g.update rms nf now).2.2.state = GateState.SILENCE))) :=
  ⟨runGate_in_band g nf ticks hnf hband,
   fun rms now hf => update_fired_characterization g nf rms now hf⟩

/-- Witness for C5: a concrete gate fed two in-band ticks holds its state
and accumulators. -/
theorem speechGate_hysteresis_transitions_witness :
    (0:ℚ) < 1/100 ∧
    (gate0.runGate (1/100) [(1/50, 0), (1/50, 100)]).2.state = gate0.state ∧
    (gate0.runGate (1/100) [(1/50, 0), (1/50, 100)]).2.speechTimeAccumulatorMs =
      gate0.speechTimeAccumulatorMs := by
  have hsilthr : gate0.silenceThreshold (1/100) = 3/200 := by
    simp only [SpeechGate.silenceThreshold, gate0, SpeechGate.init]
    rw [show (1:ℚ)/100 * (3/2) = 3/200 by norm_num]
    exact max_eq_left (by norm_num)
  have hspthr : gate0.speechThreshold (1/100) = 1/40 := by
    simp only [SpeechGate.speechThreshold, gate0, SpeechGate.init]
    rw [show (1:ℚ)/100 * (5/2) = 1/40 by norm_num]
    exact max_eq_left (by norm_num)
  have hband : ∀ p ∈ [((1:ℚ)/50, (0:ℚ)), ((1:ℚ)/50, (100:ℚ))],
      gate0.silenceThreshold (1/100) < p.1 ∧ p.1 < gate0.speechThreshold (1/100) := by
    intro p hp
    rw [hsilthr, hspthr]
    simp only [List.mem_cons, List.not_mem_nil, or_false] at hp
    rcases hp with rfl | rfl <;> constructor <;> norm_num
  have h := speechGate_hysteresis_transitions gate0 (1/100)
    [(1/50, 0), (1/50, 100)] (by norm_num) hband
  exact ⟨by norm_num, h.1.1, h.1.2.2.1⟩

/-! ## C3 — ring buffer overwrites the oldest samples -/

theorem getD_set_ne (l : List ℚ) (i j : Nat) (x : ℚ) (h : i ≠ j) :
    (l.set i x).getD j 0 = l.getD j 0 := by
  rw [List.getD_eq_getElem?_getD, List.getD_eq_getElem?_getD,
      List.getElem?_set_ne h]

theorem getD_set_self (l : List ℚ) (i : Nat) (x : ℚ) (h : i < l.length) :
    (l.set i x).getD i 0 = x := by
  rw [List.getD_eq_getElem?_getD, List.getElem?_set_eq h]
  rfl

theorem add_mod_ne (r i a C : Nat) (hi : i < C) (ha : a < C) (hne : i ≠ a) :
    (r + i) % C ≠ (r + a) % C := by
  intro heq
  have h2 : i % C = a % C := Nat.ModEq.add_left_cancel rfl heq
  rw [Nat.mod_eq_of_lt hi, Nat.mod_eq_of_lt ha] at h2
  exact hne h2

theorem contents_length (s : RingState) : s.contents.length = s.available := by
  simp [RingState.contents]

theorem enqueueOne_spec (s : RingState) (x : ℚ) (h : s.WF) :
    (s.enqueueOne x).WF ∧ (s.enqueueOne x).ringCapacity = s.ringCapacity ∧
    (s.enqueueOne x).contents = lastN s.ringCapacity (s.contents ++ [x]) := by
  obtain ⟨hC, hlen, hr, ha, hw⟩ := h
  have hwlt : s.writeIndex < s.ringCapacity := by
    rw [hw]
    exact Nat.mod_lt _ hC
  have hwblen : s.writeIndex < s.ringBuffer.length := by
    rw [hlen]
    exact hwlt
  by_cases hfull : s.available = s.ringCapacity
  · -- full ring: the write lands on the oldest cell and the read index advances
    have hwr : s.writeIndex = s.readIndex := by
      rw [hw, hfull, Nat.add_mod_right, Nat.mod_eq_of_lt hr]
    unfold RingState.enqueueOne
    rw [if_pos hfull]
    dsimp only
    have hA : s.available - 1 + 1 = s.ringCapacity := by omega
    refine ⟨⟨hC, by rw [List.length_set]; exact hlen, Nat.mod_lt _ hC,
      by dsimp only; omega, ?_⟩, rfl, ?_⟩
    · dsimp only
      rw [hwr, hA, Nat.mod_add_mod, Nat.add_mod_right]
    · -- contents: drop the oldest, append the new sample
      have hclen : (s.contents).length = s.ringCapacity := by
        rw [contents_length, hfull]
      have hRHS : lastN s.ringCapacity (s.contents ++ [x]) =
          (s.contents).drop 1 ++ [x] := by
        have h1 := lastN_append_singleton (s.contents) x (by rw [hclen]; exact hC)
        rw [hclen] at h1
        exact h1
      rw [hRHS]
      unfold RingState.contents
      dsimp only
      apply List.ext_getElem
      · simp [hA, hfull]
      · intro i hi1 hi2
        simp only [List.length_map, List.length_range, hA] at hi1
        simp only [List.getElem_map, List.getElem_range]
        rw [Nat.mod_add_mod]
        by_cases hlast : i = s.ringCapacity - 1
        · subst hlast
          have hidx : (s.readIndex + 1 + (s.ringCapacity - 1)) % s.ringCapacity =
              s.writeIndex := by
            rw [hwr, show s.readIndex + 1 + (s.ringCapacity - 1) =
              s.readIndex + s.ringCapacity from by omega, Nat.add_mod_right,
              Nat.mod_eq_of_lt hr]
          rw [hidx, getD_set_self _ _ _ hwblen]
          have hlleft : ((List.map (fun i =>
              s.ringBuffer.getD ((s.readIndex + i) % s.ringCapacity) 0)
              (List.range s.available)).drop 1).length ≤ s.ringCapacity - 1 := by
            simp [hfull]
          rw [List.getElem_append_right hlleft]
          simp [hfull]
        · have hiC : i < s.ringCapacity - 1 := by omega
          have hne : (s.readIndex + (1 + i)) % s.ringCapacity ≠ s.writeIndex := by
            rw [hwr]
            have h0 : s.readIndex = (s.readIndex + 0) % s.ringCapacity := by
              rw [Nat.add_zero, Nat.mod_eq_of_lt hr]
            conv_rhs => rw [h0]
            exact add_mod_ne _ _ _ _ (by omega) hC (by omega)
          rw [show s.readIndex + 1 + i = s.readIndex + (1 + i) from by omega]
          rw [getD_set_ne _ _ _ _ (fun he => hne he.symm)]
          have hileft : i < ((List.map (fun i =>
              s.ringBuffer.getD ((s.readIndex + i) % s.ringCapacity) 0)
              (List.range s.available)).drop 1).length := by
            simp [hfull]
            omega
          rw [List.getElem_append_left hileft]
          rw [List.getElem_drop]
          simp only [List.getElem_map, List.getElem_range]
  · -- ring not yet full: a plain append
    have halt : s.available < s.ringCapacity := lt_of_le_of_ne ha hfull
    unfold RingState.enqueueOne
    rw [if_neg hfull]
    dsimp only
    refine ⟨⟨hC, by rw [List.length_set]; exact hlen, hr, by dsimp only; omega, ?_⟩,
      rfl, ?_⟩
    · dsimp only
      rw [hw, Nat.mod_add_mod, Nat.add_assoc]
    · have hRHS : lastN s.ringCapacity (s.contents ++ [x]) = s.contents ++ [x] := by
        apply lastN_of_length_le
        rw [List.length_append, contents_length, List.length_singleton]
        omega
      rw [hRHS]
      unfold RingState.contents
      dsimp only
      apply List.ext_getElem
      · simp
      · intro i hi1 hi2
        simp only [List.length_map, List.length_range] at hi1
        simp only [List.getElem_map, List.getElem_range]
        by_cases hlast : i = s.available
        · subst hlast
          have hidx : (s.readIndex + s.available) % s.ringCapacity = s.writeIndex :=
            hw.symm
          rw [hidx, getD_set_self _ _ _ hwblen]
          have hlleft : (List.map (fun i =>
              s.ringBuffer.getD ((s.readIndex + i) % s.ringCapacity) 0)
              (List.range s.available)).length ≤ s.available := by
            simp
          rw [List.getElem_append_right hlleft]
          simp
        · have hilt : i < s.available := by omega
          have hne : (s.readIndex + i) % s.ringCapacity ≠ s.writeIndex := by
            rw [hw]
            exact add_mod_ne _ _ _ _ (by omega) halt hlast
          rw [getD_set_ne _ _ _ _ (fun he => hne he.symm)]
          have hileft : i < (List.map (fun i =>
              s.ringBuffer.getD ((s.readIndex + i) % s.ringCapacity) 0)
              (List.range s.available)).length := by
            simp
            exact hilt
          rw [List.getElem_append_left hileft]
          simp only [List.getElem_map, List.getElem_range]

theorem foldl_enqueue_spec (s : RingState) (xs : List ℚ) (h : s.WF) :
    (xs.foldl RingState.enqueueOne s).WF ∧
    (xs.foldl RingState.enqueueOne s).ringCapacity = s.ringCapacity ∧
    (xs.foldl RingState.enqueueOne s).contents =
      lastN s.ringCapacity (s.contents ++ xs) := by
  induction xs generalizing s with
  | nil =>
    refine ⟨h, rfl, ?_⟩
    rw [List.foldl_nil, List.append_nil]
    exact (lastN_of_length_le _ _ (by rw [contents_length]; exact h.2.2.2.1)).symm
  | cons x xs ih =>
    obtain ⟨hwf1, hcap1, hcont1⟩ := enqueueOne_spec s x h
    obtain ⟨hwf2, hcap2, hcont2⟩ := ih (s.enqueueOne x) hwf1
    rw [List.foldl_cons]
    refine ⟨hwf2, hcap2.trans hcap1, ?_⟩
    rw [hcont2, hcap1, hcont1, lastN_idem_append, List.append_assoc,
        List.singleton_append]

theorem enqueueAudioSamples_eq (s : RingState) (xs : List ℚ)
    (hC : 0 < s.ringCapacity) :
    s.EnqueueAudioSamples xs = xs.foldl RingState.enqueueOne s := by
  unfold RingState.EnqueueAudioSamples
  by_cases hx : xs = []
  · rw [if_pos (Or.inl hx), hx, List.foldl_nil]
  · rw [if_neg]
    intro hor
    rcases hor with h1 | h1
    · exact hx h1
    · omega

theorem foldl_calls_spec (s : RingState) (wss : List (List ℚ)) (h : s.WF) :
    (wss.foldl RingState.EnqueueAudioSamples s).WF ∧
    (wss.foldl RingState.EnqueueAudioSamples s).ringCapacity = s.ringCapacity ∧
    (wss.foldl RingState.EnqueueAudioSamples s).contents =
      lastN s.ringCapacity (s.contents ++ wss.flatten) := by
  induction wss generalizing s with
  | nil =>
    refine ⟨h, rfl, ?_⟩
    rw [List.foldl_nil, List.flatten_nil, List.append_nil]
    exact (lastN_of_length_le _ _ (by rw [contents_length]; exact h.2.2.2.1)).symm
  | cons ws wss ih =>
    have hC := h.1
    obtain ⟨hwf1, hcap1, hcont1⟩ := foldl_enqueue_spec s ws h
    rw [List.foldl_cons, enqueueAudioSamples_eq s ws hC]
    obtain ⟨hwf2, hcap2, hcont2⟩ := ih (ws.foldl RingState.enqueueOne s) hwf1
    refine ⟨hwf2, hcap2.trans hcap1, ?_⟩
    rw [hcont2, hcap1, hcont1, lastN_idem_append, List.append_assoc,
        List.flatten_cons]

theorem wf_shift (s : RingState) (h : s.WF) (hpos : 0 < s.available) :
    RingState.WF { s with readIndex := (s.readIndex + 1) % s.ringCapacity,
                          available := s.available - 1 } := by
  obtain ⟨hC, hlen, hr, ha, hw⟩ := h
  refine ⟨hC, hlen, Nat.mod_lt _ hC, by dsimp only; omega, ?_⟩
  dsimp only
  rw [hw, Nat.mod_add_mod]
  congr 1
  omega

theorem contents_cons (s : RingState) (h : s.WF) (hpos : 0 < s.available) :
    s.contents = s.ringBuffer.getD s.readIndex 0 ::
      RingState.contents { s with readIndex := (s.readIndex + 1) % s.ringCapacity,
                                  available := s.available - 1 } := by
  obtain ⟨hC, hlen, hr, ha, hw⟩ := h
  unfold RingState.contents
  dsimp only
  apply List.ext_getElem
  · simp
    omega
  · intro i hi1 hi2
    simp only [List.length_map, List.length_range] at hi1
    simp only [List.getElem_map, List.getElem_range]
    cases i with
    | zero =>
      simp only [List.getElem_cons_zero]
      rw [Nat.add_zero, Nat.mod_eq_of_lt hr]
    | succ j =>
      simp only [List.getElem_cons_succ, List.getElem_map, List.getElem_range]
      rw [Nat.mod_add_mod]
      congr 2
      omega

theorem dequeueLoop_spec (s : RingState) (count : Nat) (h : s.WF)
    (hc : count ≤ s.available) :
    (s.dequeueLoop count).1 = s.contents.take count := by
  induction count generalizing s with
  | zero => simp [RingState.dequeueLoop]
  | succ n ih =>
    have hpos : 0 < s.available := by omega
    have hcons := contents_cons s h hpos
    rw [RingState.dequeueLoop]
    dsimp only
    rw [hcons, List.take_succ_cons]
    congr 1
    exact ih _ (wf_shift s h hpos) (show n ≤ s.available - 1 by omega)

/-- C3: for every well-formed ring state and any sequence of write calls
whose total sample count reaches the capacity `C`, the writes are plain
total functions (they never block or fail), `available ≤ C` holds after
every prefix of the calls, and a subsequent read of `C` samples succeeds
and returns exactly the most recent `C` written samples in write order —
the oldest samples having been discarded first. -/
theorem ringBuffer_overwrite_oldest (s : RingState) (wss : List (List ℚ))
    (hwf : s.WF) (htot : s.ringCapacity ≤ (wss.flatten).length) :
    (∀ n, ((wss.take n).foldl RingState.EnqueueAudioSamples s).available ≤
      s.ringCapacity) ∧
    ((wss.foldl RingState.EnqueueAudioSamples s).DequeueAudio s.ringCapacity).1 =
      true ∧
    ((wss.foldl RingState.EnqueueAudioSamples s).DequeueAudio s.ringCapacity).2.1 =
      lastN s.ringCapacity wss.flatten := by
  have hC := hwf.1
  obtain ⟨hwfF, hcapF, hcontF⟩ := foldl_calls_spec s wss hwf
  have havail : (wss.foldl RingState.EnqueueAudioSamples s).available =
      s.ringCapacity := by
    have h1 := contents_length (wss.foldl RingState.EnqueueAudioSamples s)
    rw [hcontF, lastN_length, List.length_append, contents_length] at h1
    omega
  refine ⟨?_, ?_, ?_⟩
  · intro n
    obtain ⟨hwfn, hcapn, _⟩ := foldl_calls_spec s (wss.take n) hwf
    have h2 := hwfn.2.2.2.1
    rw [hcapn] at h2
    exact h2
  · unfold RingState.DequeueAudio
    rw [if_neg (by omega), if_neg (by omega)]
  · unfold RingState.DequeueAudio
    rw [if_neg (by omega), if_neg (by omega)]
    show ((wss.foldl RingState.EnqueueAudioSamples s).dequeueLoop s.ringCapacity).1 =
      lastN s.ringCapacity wss.flatten
    rw [dequeueLoop_spec _ _ hwfF (by omega), hcontF,
        lastN_append_right _ _ _ htot]
    exact List.take_all_of_le (by rw [lastN_length]; omega)

/-- Witness for C3: a fresh two-cell ring receiving the writes [1] then
[2, 3] and then read in full returns [2, 3]. -/
theorem ringBuffer_overwrite_oldest_witness :
    RingState.WF ringW ∧
    (([[1], [2, 3]].foldl RingState.EnqueueAudioSamples ringW).DequeueAudio 2).1 =
      true ∧
    (([[1], [2, 3]].foldl RingState.EnqueueAudioSamples ringW).DequeueAudio 2).2.1 =
      lastN 2 [(1:ℚ), 2, 3] := by
  have hwf : RingState.WF ringW := ⟨by decide, by decide, by decide, by decide, by decide⟩
  have h := ringBuffer_overwrite_oldest ringW [[1], [2, 3]] hwf (by decide)
  exact ⟨hwf, h.2.1, h.2.2⟩

end Ndt
